import Mathlib

/-!
Shallow embedding of the customer-segmentation pipeline of this repository
(backend/app/preprocessing_v2.py and backend/app/preprocessing.py), with
theorems settling the specification claims about it.

Conventions of the embedding:
* a pandas frame is a list of typed rows; a missing cell (NaN) is `none`;
* timestamps are integers counting seconds, one day is 86400 seconds;
* float arithmetic is embedded as exact rational arithmetic;
* Python `str.strip` / `str.startswith` are `stripStr` / `startsWithC`;
* a raised exception is `Except.error`.
-/

/-- Python whitespace test used by `str.strip`. -/
def isSpaceChar (c : Char) : Bool :=
  c = ' ' || c = '\t' || c = '\n' || c = '\r'

/-- Python `str.strip()`: drop whitespace on both ends. -/
def stripStr (s : String) : String :=
  String.mk (((s.data.dropWhile isSpaceChar).reverse.dropWhile isSpaceChar).reverse)

/-- Python `s.startswith('C')`: the first character is the cancellation
sentinel. -/
def startsWithC (s : String) : Bool :=
  match s.data with
  | [] => false
  | c :: _ => c = 'C'

/-- Worker for keep-first duplicate removal: `seen` holds the values already
emitted. -/
def dedupGo {α : Type} [DecidableEq α] (seen : List α) : List α → List α
  | [] => []
  | x :: xs => if x ∈ seen then dedupGo seen xs else x :: dedupGo (x :: seen) xs

/-- Keep-first duplicate removal, as pandas `drop_duplicates` (and the set of
group keys of a `groupby`, whose ordering is immaterial to every claim
below). -/
def dedupKeepFirst {α : Type} [DecidableEq α] (l : List α) : List α :=
  dedupGo [] l

/-- Maximum of a list, `dflt` on the empty list (pandas `Series.max`). -/
def listMax {α : Type} [LinearOrder α] (dflt : α) : List α → α
  | [] => dflt
  | [x] => x
  | x :: y :: xs => max x (listMax dflt (y :: xs))

/-- Minimum of a list, `dflt` on the empty list (pandas `Series.min`). -/
def listMin {α : Type} [LinearOrder α] (dflt : α) : List α → α
  | [] => dflt
  | [x] => x
  | x :: y :: xs => min x (listMin dflt (y :: xs))

/-- `np.argmax`: index of the first occurrence of the maximum value. -/
def argmaxIdx : List ℚ → ℕ
  | [] => 0
  | [_] => 0
  | x :: y :: xs =>
    let j := argmaxIdx (y :: xs)
    if x < (y :: xs).getD j 0 then j + 1 else 0

/-- Index of the value 4 in the tested cluster range (the
`for i, k in enumerate(x_vals)` search with a break at the first hit). -/
def idxOfFour : List ℕ → Option ℕ
  | [] => none
  | k :: ks => if k = 4 then some 0 else (idxOfFour ks).map (· + 1)

/-- Number of occurrences of `s` in `l`. -/
def countOcc (l : List String) (s : String) : ℕ :=
  (l.filter (fun t => t = s)).length

/-- pandas `Series.mode().iloc[0]`: a most frequent value, ties broken by the
smallest value (mode returns its answers sorted ascending). -/
def modeOf (l : List String) : Option String :=
  l.dedup.foldl
    (fun best cand =>
      match best with
      | none => some cand
      | some b =>
        if countOcc l b < countOcc l cand ∨ (countOcc l cand = countOcc l b ∧ cand < b)
        then some cand else some b)
    none

/-- One row of the uploaded transaction table after the column-mapping
rename: the canonical columns used by `clean_and_process_data`
(preprocessing_v2.py).  `invoiceDate` is a timestamp in seconds. -/
structure RawRow where
  customerId : Option ℚ
  invoiceNo : String
  quantity : Option ℚ
  unitPrice : Option ℚ
  invoiceDate : ℤ
  description : Option String
  stockCode : Option String
deriving DecidableEq

/-- The mapped dataframe: its rows, plus which of the two optional product
columns are present in the frame. -/
structure RawFrame where
  hasDescription : Bool
  hasStockCode : Bool
  rows : List RawRow

/-- `desc_map` of `clean_and_process_data`: rows with a present Description,
grouped by StockCode, the mode of each group.  A group only exists for a
code with at least one non-missing description; rows with a missing
StockCode belong to no group. -/
def descMap (rows : List RawRow) (code : String) : Option String :=
  modeOf ((rows.filter (fun r => r.stockCode = some code)).filterMap (fun r => r.description))

/-- `fill_description` applied to one row: rows with a missing description
take the mode of their StockCode group, keeping the missing value when the
code is missing or has no group. -/
def fillDescription (rows : List RawRow) (r : RawRow) : RawRow :=
  match r.description with
  | some _ => r
  | none =>
    match r.stockCode with
    | none => r
    | some c => { r with description := descMap rows c }

/-- Step 3 of `clean_and_process_data`: standardize descriptions.  When the
frame has a Description column, the code unconditionally runs
`groupby("StockCode")`; pandas raises a `KeyError` if that column is
absent from the frame. -/
def fillDescriptions (f : RawFrame) (rows : List RawRow) : Except String (List RawRow) :=
  if f.hasDescription then
    if f.hasStockCode then
      Except.ok (rows.map (fillDescription rows))
    else
      Except.error ("KeyError: StockCode")
  else
    Except.ok rows

/-- `df_clean['Quantity'] > 0` for one row (false on a missing cell, as for
NaN in pandas). -/
def qtyPos (r : RawRow) : Bool :=
  match r.quantity with
  | some q => decide (0 < q)
  | none => false

/-- `df_clean['UnitPrice'] > 0` for one row (false on a missing cell). -/
def pricePos (r : RawRow) : Bool :=
  match r.unitPrice with
  | some p => decide (0 < p)
  | none => false

/-- The cancellation filter: keep rows whose invoice id does not start with
the sentinel character. -/
def notCancelled (r : RawRow) : Bool :=
  ! startsWithC r.invoiceNo

/-- `astype(str).str.strip()` applied to the InvoiceNo column of one row. -/
def stripInvoice (r : RawRow) : RawRow :=
  { r with invoiceNo := stripStr r.invoiceNo }

/-- `clean_and_process_data` (preprocessing_v2.py): drop rows with a missing
CustomerID (error when nothing is left), standardize descriptions, strip
the invoice string, drop rows with non-positive quantity, cancelled
invoices (InvoiceNo starting with the sentinel), rows with non-positive
price, then exact duplicates, and error when nothing is left. -/
def clean_and_process_data (f : RawFrame) : Except String (List RawRow) :=
  let df1 := f.rows.filter (fun r => r.customerId.isSome)
  if df1.length = 0 then
    Except.error ("No valid data remaining after removing missing CustomerIDs")
  else
    match fillDescriptions f df1 with
    | Except.error e => Except.error e
    | Except.ok df2 =>
      let df3 := df2.map stripInvoice
      let df4 := df3.filter qtyPos
      let df5 := df4.filter notCancelled
      let df6 := df5.filter pricePos
      let df7 := dedupKeepFirst df6
      if df7.length = 0 then
        Except.error ("No valid data remaining after cleaning")
      else
        Except.ok df7

/-- One row of the frame given to `clean_raw` (preprocessing.py), after its
numeric coercions: `customerId` is `to_numeric(..., errors coerce)` and
`invoiceDate` is `to_datetime(..., errors coerce)` (seconds), so a cell
that failed to parse is `none`. -/
structure LegacyRow where
  customerId : Option ℚ
  invoiceNo : String
  invoiceDate : Option ℤ
  quantity : Option ℚ
  unitPrice : Option ℚ
deriving DecidableEq

/-- A cleaned row of `clean_raw`, with the computed TotalPrice column. -/
structure LegacyCleanRow where
  customerId : ℚ
  invoiceNo : String
  invoiceDate : ℤ
  quantity : ℚ
  unitPrice : ℚ
  totalPrice : ℚ
deriving DecidableEq

/-- `to_numeric(...).fillna(0)` on the Quantity and UnitPrice columns of one
row. -/
def legacyCoerce (r : LegacyRow) : LegacyRow :=
  { r with quantity := some (r.quantity.getD 0), unitPrice := some (r.unitPrice.getD 0) }

/-- Rebuild the surviving row with its TotalPrice column
(`compute_totalprice`). -/
def legacyFinish (r : LegacyRow) : LegacyCleanRow :=
  { customerId := r.customerId.getD 0
    invoiceNo := r.invoiceNo
    invoiceDate := r.invoiceDate.getD 0
    quantity := r.quantity.getD 0
    unitPrice := r.unitPrice.getD 0
    totalPrice := r.quantity.getD 0 * r.unitPrice.getD 0 }

/-- `clean_raw` (preprocessing.py): strip InvoiceNo, drop rows with missing
CustomerID or InvoiceDate, coerce Quantity and UnitPrice with 0 for
missing cells, keep rows with positive quantity and price, drop
cancellations (InvoiceNo starting with the sentinel), drop exact
duplicates, and add TotalPrice. -/
def clean_raw (rows : List LegacyRow) : List LegacyCleanRow :=
  let r1 := rows.map (fun r => { r with invoiceNo := stripStr r.invoiceNo })
  let r2 := r1.filter (fun r => r.customerId.isSome && r.invoiceDate.isSome)
  let r3 := r2.map legacyCoerce
  let r4 := r3.filter (fun r => decide (0 < r.quantity.getD 0) && decide (0 < r.unitPrice.getD 0))
  let r5 := r4.filter (fun r => ! startsWithC r.invoiceNo)
  let r6 := dedupKeepFirst r5
  r6.map legacyFinish

/-- Seconds per day; `dt.timedelta(days=1)` and the `.days` divisor. -/
def secondsPerDay : ℤ := 86400

/-- One cleaned transaction row as consumed by the RFM builders: the cleaned
frame guarantees present customer ids, parseable dates and numeric
quantity and price. -/
structure TxRow where
  customerId : ℚ
  invoiceNo : String
  invoiceDate : ℤ
  quantity : ℚ
  unitPrice : ℚ
deriving DecidableEq

/-- One row of the RFM table built by `calculate_rfm_features`. -/
structure RfmRow where
  customerId : ℚ
  recency : ℤ
  frequency : ℕ
  monetary : ℚ
deriving DecidableEq

/-- The per-customer aggregation of `calculate_rfm_features`:
recency is `(ref_date - x.max()).days` (a floor division of the timedelta
by one day), frequency is `nunique` of InvoiceNo, monetary is the sum of
the TotalPrice column computed as Quantity times UnitPrice. -/
def rfmForCustomer (df : List TxRow) (refDate : ℤ) (c : ℚ) : RfmRow :=
  let rows := df.filter (fun r => r.customerId = c)
  { customerId := c
    recency := Int.fdiv (refDate - listMax 0 (rows.map (fun r => r.invoiceDate))) secondsPerDay
    frequency := (dedupKeepFirst (rows.map (fun r => r.invoiceNo))).length
    monetary := (rows.map (fun r => r.quantity * r.unitPrice)).sum }

/-- `calculate_rfm_features` (preprocessing_v2.py): the reference date is one
day after the global maximum invoice date, then one aggregated row per
CustomerID.  The groupby result is the table keyed by CustomerID; its key
order is immaterial to the claims and first-occurrence order is used. -/
def calculate_rfm_features (df : List TxRow) : List RfmRow :=
  let refDate := listMax 0 (df.map (fun r => r.invoiceDate)) + secondsPerDay
  (dedupKeepFirst (df.map (fun r => r.customerId))).map (rfmForCustomer df refDate)

/-- One row of the RFM table built by `calculate_rfm` (preprocessing.py),
with its derived AOV, lifespan and CLV columns. -/
structure RfmFullRow where
  customerId : ℚ
  recency : ℤ
  frequency : ℕ
  monetary : ℚ
  aov : ℚ
  lifespan : ℤ
  clv : ℚ
deriving DecidableEq

/-- `calculate_rfm` (preprocessing.py): snapshot date one day after the last
invoice, recency in whole days against it, frequency `nunique` invoices,
monetary the sum of TotalPrice, AOV their quotient (the division by zero
of an absent group cannot occur; rational division by zero is 0, matching
the replace/fillna of the code), lifespan last minus first purchase in
whole days, CLV the product. -/
def calculate_rfm (df : List LegacyCleanRow) : List RfmFullRow :=
  let snapshot := listMax 0 (df.map (fun r => r.invoiceDate)) + secondsPerDay
  (dedupKeepFirst (df.map (fun r => r.customerId))).map (fun c =>
    let rows := df.filter (fun r => r.customerId = c)
    let dates := rows.map (fun r => r.invoiceDate)
    let recency := Int.fdiv (snapshot - listMax 0 dates) secondsPerDay
    let frequency := (dedupKeepFirst (rows.map (fun r => r.invoiceNo))).length
    let monetary := (rows.map (fun r => r.totalPrice)).sum
    let aov := monetary / (frequency : ℚ)
    let lifespan := Int.fdiv (listMax 0 dates - listMin 0 dates) secondsPerDay
    { customerId := c
      recency := recency
      frequency := frequency
      monetary := monetary
      aov := aov
      lifespan := lifespan
      clv := aov * (frequency : ℚ) * (lifespan : ℚ) })

/-- The KMeans fits of the cluster-count search, abstracted: a cluster count
is mapped to the fitted inertia, or to a raised numerical error. -/
def collectFits (fit : ℕ → Except Unit ℚ) : List ℕ → Except Unit (List ℚ)
  | [] => Except.ok []
  | k :: ks =>
    match fit k with
    | Except.error e => Except.error e
    | Except.ok i =>
      match collectFits fit ks with
      | Except.error e => Except.error e
      | Except.ok is => Except.ok (i :: is)

/-- The perpendicular-distance scores of the improved elbow search: both
axes are normalized to the unit interval and each point is scored by its
distance to the line joining the first and last points.  The code divides
every score by the same constant `sqrt((y2-y1)^2 + (x2-x1)^2)`, which is
positive because the normalized x endpoints are 0 and 1; a uniform
positive scaling changes neither the argmax nor the 85-percent test
below, so the scores are embedded unscaled (the numerators). -/
def kneeDistances (ks : List ℕ) (inertias : List ℚ) : List ℚ :=
  let xvals : List ℚ := ks.map Nat.cast
  let xmin := listMin 0 xvals
  let xmax := listMax 0 xvals
  let ymin := listMin 0 inertias
  let ymax := listMax 0 inertias
  let xnorm := xvals.map (fun x => (x - xmin) / (xmax - xmin))
  let ynorm := inertias.map (fun y => (y - ymin) / (ymax - ymin))
  let x1 := xnorm.getD 0 0
  let y1 := ynorm.getD 0 0
  let x2 := xnorm.getD (xnorm.length - 1) 0
  let y2 := ynorm.getD (ynorm.length - 1) 0
  List.zipWith (fun x0 y0 => |(y2 - y1) * x0 - (x2 - x1) * y0 + x2 * y1 - y2 * x1|)
    xnorm ynorm

/-- The selection logic of `find_optimal_clusters` once at least three
inertias exist: the knee point is the tested k with the first maximal
distance score; if k equals 4 somewhere in the tested range and its score
is at least 85 percent of the maximum, 4 is preferred. -/
def kneeSelect (ks : List ℕ) (inertias : List ℚ) : ℕ :=
  let distances := kneeDistances ks inertias
  let maxDistanceIdx := argmaxIdx distances
  let kneePoint := ks.getD maxDistanceIdx 0
  match idxOfFour ks with
  | some i4 =>
    if (85 : ℚ) / 100 * (distances.getD maxDistanceIdx 0) ≤ distances.getD i4 0 then 4
    else kneePoint
  | none => kneePoint

/-- The maximum feasible cluster count `min(max_clusters, len(data) - 1)`
of `find_optimal_clusters` (as an integer: it is `-1` on empty data). -/
def maxPossibleClusters (n maxClusters : ℕ) : ℤ :=
  min (maxClusters : ℤ) ((n : ℤ) - 1)

/-- The cluster counts tested by `find_optimal_clusters`:
`range(min_clusters, max_possible_clusters + 1)`. -/
def testedRange (n minClusters maxClusters : ℕ) : List ℕ :=
  List.range' minClusters ((maxPossibleClusters n maxClusters).toNat - minClusters + 1)

/-- `find_optimal_clusters` (preprocessing_v2.py).  `fit` abstracts the
KMeans fits (deterministic for the fixed seed), `n` is `len(data)`.  The
tested range is `min_clusters .. min(max_clusters, n - 1)`; if it is
empty the minimum is returned; with fewer than three inertias the
initial `optimal_clusters = min_clusters` survives; the `except` clause
of the code returns `min(4, max_possible_clusters)`. -/
def find_optimal_clusters (fit : ℕ → Except Unit ℚ) (n minClusters maxClusters : ℕ) : ℕ :=
  if maxPossibleClusters n maxClusters < (minClusters : ℤ) then minClusters
  else
    match collectFits fit (testedRange n minClusters maxClusters) with
    | Except.error _ => min 4 (maxPossibleClusters n maxClusters).toNat
    | Except.ok inertias =>
      if 3 ≤ inertias.length then kneeSelect (testedRange n minClusters maxClusters) inertias
      else minClusters

/-- One row of the per-cluster mean table handed to `auto_name_segments`:
the mean scaled RFM values of one cluster. -/
structure ClusterMeans where
  cluster : ℤ
  recency : ℚ
  frequency : ℚ
  monetary : ℚ
deriving DecidableEq

/-- The naming kernel of `auto_name_segments`: the nested conditionals on
the three sign conditions of the mean scaled RFM values. -/
def segmentName (recency frequency monetary : ℚ) : String :=
  let recent := decide (recency < 0)
  let frequent := decide (0 < frequency)
  let highValue := decide (0 < monetary)
  if recent && frequent && highValue then "Champions"
  else if recent && frequent && !highValue then "Loyal Customers"
  else if recent && !frequent && highValue then "Big Spenders"
  else if recent && !frequent && !highValue then "New Customers"
  else if !recent && frequent && highValue then "At-Risk VIPs"
  else if !recent && frequent && !highValue then "Cannot Lose Them"
  else if !recent && !frequent && highValue then "Hibernating VIPs"
  else "Lost Customers"

/-- `auto_name_segments` (preprocessing_v2.py): the mapping cluster id to
segment name, one entry per row of the cluster-means table. -/
def auto_name_segments (means : List ClusterMeans) : List (ℤ × String) :=
  means.map (fun row => (row.cluster, segmentName row.recency row.frequency row.monetary))

/-- Modelled from the spec: the fixed 8-entry taxonomy keyed by the triple
of sign conditions (recent, frequent, high-value), as section 4.6 lists
it.  Used only to compare the code's nested conditionals against the
specified table. -/
def specSegmentTable (recent frequent highValue : Bool) : String :=
  match recent, frequent, highValue with
  | true, true, true => "Champions"
  | true, true, false => "Loyal Customers"
  | true, false, true => "Big Spenders"
  | true, false, false => "New Customers"
  | false, true, true => "At-Risk VIPs"
  | false, true, false => "Cannot Lose Them"
  | false, false, true => "Hibernating VIPs"
  | false, false, false => "Lost Customers"

/-- One row of the segmented RFM frame consumed by `generate_analytics`:
an RFM row annotated with its cluster id and segment name. -/
structure SegRow where
  customerId : ℚ
  recency : ℤ
  frequency : ℕ
  monetary : ℚ
  cluster : ℤ
  clusterName : String
deriving DecidableEq

/-- The analytics fields the claims concern. -/
structure Analytics where
  nCustomers : ℕ
  clusterCounts : List (String × ℕ)
  revenueBySegment : List (String × ℚ)
deriving DecidableEq

/-- `generate_analytics` (preprocessing_v2.py), the aggregations the claims
concern: `n_customers = len(rfm)`, `cluster_counts` the size of each
segment, and `revenue_by_segment` the groupby of Monetary sums over the
segment name.  Each groupby dict is represented as an association list in
first-occurrence key order. -/
def generate_analytics (rfm : List SegRow) : Analytics :=
  { nCustomers := rfm.length
    clusterCounts := (dedupKeepFirst (rfm.map (fun r => r.clusterName))).map
      (fun s => (s, (rfm.filter (fun r => r.clusterName = s)).length))
    revenueBySegment := (dedupKeepFirst (rfm.map (fun r => r.clusterName))).map
      (fun s => (s, ((rfm.filter (fun r => r.clusterName = s)).map (fun r => r.monetary)).sum)) }

/-- A first concrete mapped frame: two valid rows, no optional columns. -/
def sampleRawRow1 : RawRow := ⟨some 1, "536365", some 6, some 3, 86400, none, none⟩

/-- A second valid row of the concrete mapped frame. -/
def sampleRawRow2 : RawRow := ⟨some 2, "536366", some 2, some 4, 172800, none, none⟩

/-- A concrete mapped frame on which cleaning succeeds. -/
def sampleFrame : RawFrame := ⟨false, false, [sampleRawRow1, sampleRawRow2]⟩

/-- A concrete raw row for the legacy cleaner. -/
def sampleLegacyRow : LegacyRow := ⟨some 1, "537000", some 86400, some 2, some 3⟩

/-- A concrete frame with a Description column but no StockCode column. -/
def sampleFrameNoStock : RawFrame :=
  ⟨true, false, [{ sampleRawRow1 with description := some "MUG" }]⟩

/-- Two cleaned transactions of one customer sharing one invoice id, dated
one day apart. -/
def sampleTx1 : TxRow := ⟨1, "A1", 86400, 3, 10⟩

/-- Second sample transaction: same customer, same invoice id as the first. -/
def sampleTx2 : TxRow := ⟨1, "A1", 172800, 2, 5⟩

/-- A concrete cleaned dataset: one customer, two rows, one invoice. -/
def sampleTxDf : List TxRow := [sampleTx1, sampleTx2]

/-- A concrete cleaned dataset for the legacy RFM builder. -/
def sampleLegacyCleanDf : List LegacyCleanRow := [⟨1, "B7", 86400, 2, 3, 6⟩]

/-- A concrete inertia oracle for the knee-selection witness: a convex
decreasing curve over the tested range 2..6. -/
def sampleFit (k : ℕ) : Except Unit ℚ :=
  if k = 2 then Except.ok 100
  else if k = 3 then Except.ok 60
  else if k = 4 then Except.ok 30
  else if k = 5 then Except.ok 25
  else Except.ok 22

theorem dedupGo_not_mem_seen {α : Type} [DecidableEq α] (l : List α) :
    ∀ (seen : List α) (x : α), x ∈ dedupGo seen l → x ∉ seen := by
  induction l with
  | nil => intro seen x hx; simp [dedupGo] at hx
  | cons a l ih =>
    intro seen x hx
    simp only [dedupGo] at hx
    by_cases ha : a ∈ seen
    · rw [if_pos ha] at hx
      exact ih seen x hx
    · rw [if_neg ha] at hx
      rcases List.mem_cons.mp hx with h | h
      · subst h; exact ha
      · intro hxs
        exact ih (a :: seen) x h (List.mem_cons_of_mem a hxs)

theorem dedupGo_nodup {α : Type} [DecidableEq α] (l : List α) :
    ∀ seen : List α, (dedupGo seen l).Nodup := by
  induction l with
  | nil => intro seen; simp [dedupGo]
  | cons a l ih =>
    intro seen
    simp only [dedupGo]
    by_cases ha : a ∈ seen
    · rw [if_pos ha]; exact ih seen
    · rw [if_neg ha]
      refine List.nodup_cons.mpr ⟨?_, ih (a :: seen)⟩
      intro hmem
      exact dedupGo_not_mem_seen l (a :: seen) a hmem (List.mem_cons_self a seen)

theorem dedupGo_subset {α : Type} [DecidableEq α] (l : List α) :
    ∀ (seen : List α) (x : α), x ∈ dedupGo seen l → x ∈ l := by
  induction l with
  | nil => intro seen x hx; simp [dedupGo] at hx
  | cons a l ih =>
    intro seen x hx
    simp only [dedupGo] at hx
    by_cases ha : a ∈ seen
    · rw [if_pos ha] at hx
      exact List.mem_cons_of_mem a (ih seen x hx)
    · rw [if_neg ha] at hx
      rcases List.mem_cons.mp hx with h | h
      · subst h; exact List.mem_cons_self _ _
      · exact List.mem_cons_of_mem a (ih (a :: seen) x h)

theorem mem_dedupGo {α : Type} [DecidableEq α] (l : List α) :
    ∀ (seen : List α) (x : α), x ∈ l → x ∉ seen → x ∈ dedupGo seen l := by
  induction l with
  | nil => intro seen x hx _; simp at hx
  | cons a l ih =>
    intro seen x hx hxs
    simp only [dedupGo]
    by_cases ha : a ∈ seen
    · rw [if_pos ha]
      rcases List.mem_cons.mp hx with h | h
      · subst h; exact absurd ha hxs
      · exact ih seen x h hxs
    · rw [if_neg ha]
      rcases List.mem_cons.mp hx with h | h
      · subst h; exact List.mem_cons_self _ _
      · by_cases hxa : x = a
        · subst hxa; exact List.mem_cons_self x _
        · refine List.mem_cons_of_mem a (ih (a :: seen) x h ?_)
          intro hmem
          rcases List.mem_cons.mp hmem with h2 | h2
          · exact hxa h2
          · exact hxs h2

theorem dedupKeepFirst_nodup {α : Type} [DecidableEq α] (l : List α) :
    (dedupKeepFirst l).Nodup :=
  dedupGo_nodup l []

theorem dedupKeepFirst_subset {α : Type} [DecidableEq α] {l : List α} {x : α}
    (h : x ∈ dedupKeepFirst l) : x ∈ l :=
  dedupGo_subset l [] x h

theorem mem_dedupKeepFirst {α : Type} [DecidableEq α] {l : List α} {x : α}
    (h : x ∈ l) : x ∈ dedupKeepFirst l :=
  mem_dedupGo l [] x h (by simp)

theorem dedupKeepFirst_length_toFinset {α : Type} [DecidableEq α] (l : List α) :
    (dedupKeepFirst l).length = l.toFinset.card := by
  have hset : (dedupKeepFirst l).toFinset = l.toFinset := by
    ext x
    simp only [List.mem_toFinset]
    exact ⟨fun h => dedupKeepFirst_subset h, fun h => mem_dedupKeepFirst h⟩
  rw [← List.toFinset_card_of_nodup (dedupKeepFirst_nodup l), hset]

theorem le_listMax {α : Type} [LinearOrder α] (dflt : α) :
    ∀ (l : List α) (x : α), x ∈ l → x ≤ listMax dflt l := by
  intro l
  induction l with
  | nil => intro x hx; simp at hx
  | cons a l ih =>
    intro x hx
    cases l with
    | nil =>
      rcases List.mem_cons.mp hx with h | h
      · subst h; simp [listMax]
      · simp at h
    | cons b l2 =>
      rcases List.mem_cons.mp hx with h | h
      · subst h
        exact le_max_left _ _
      · exact le_trans (ih x h) (le_max_right a _)

theorem listMax_mem {α : Type} [LinearOrder α] (dflt : α) :
    ∀ l : List α, l ≠ [] → listMax dflt l ∈ l := by
  intro l
  induction l with
  | nil => intro h; exact absurd rfl h
  | cons a l ih =>
    intro _
    cases l with
    | nil => simp [listMax]
    | cons b l2 =>
      show max a (listMax dflt (b :: l2)) ∈ a :: b :: l2
      rcases max_choice a (listMax dflt (b :: l2)) with h | h
      · rw [h]; exact List.mem_cons_self a _
      · rw [h]; exact List.mem_cons_of_mem a (ih (by simp))

theorem getD_mem {α : Type} : ∀ (l : List α) (i : ℕ) (d : α),
    i < l.length → l.getD i d ∈ l := by
  intro l
  induction l with
  | nil => intro i d h; simp at h
  | cons a l ih =>
    intro i d h
    cases i with
    | zero => simp
    | succ i2 =>
      have : i2 < l.length := by simpa using h
      simpa using List.mem_cons_of_mem a (ih i2 d this)

theorem argmaxIdx_lt_length : ∀ l : List ℚ, l ≠ [] → argmaxIdx l < l.length := by
  intro l
  induction l with
  | nil => intro h; exact absurd rfl h
  | cons a l ih =>
    intro _
    cases l with
    | nil => simp [argmaxIdx]
    | cons b l2 =>
      show argmaxIdx (a :: b :: l2) < (a :: b :: l2).length
      simp only [argmaxIdx]
      by_cases h : a < (b :: l2).getD (argmaxIdx (b :: l2)) 0
      · rw [if_pos h]
        have := ih (by simp)
        simpa [Nat.succ_lt_succ_iff] using this
      · rw [if_neg h]
        simp

theorem getD_argmaxIdx_max : ∀ (l : List ℚ) (i : ℕ), i < l.length →
    l.getD i 0 ≤ l.getD (argmaxIdx l) 0 := by
  intro l
  induction l with
  | nil => intro i hi; simp at hi
  | cons a l ih =>
    intro i hi
    cases l with
    | nil =>
      have : i = 0 := by simpa using hi
      subst this
      simp [argmaxIdx]
    | cons b l2 =>
      simp only [argmaxIdx]
      by_cases h : a < (b :: l2).getD (argmaxIdx (b :: l2)) 0
      · rw [if_pos h]
        cases i with
        | zero => simpa using le_of_lt h
        | succ i2 =>
          have hi2 : i2 < (b :: l2).length := by simpa using hi
          simpa using ih i2 hi2
      · rw [if_neg h]
        push_neg at h
        cases i with
        | zero => simp
        | succ i2 =>
          have hi2 : i2 < (b :: l2).length := by simpa using hi
          have step1 : (a :: b :: l2).getD (i2 + 1) 0 = (b :: l2).getD i2 0 := by simp
          have step2 : (b :: l2).getD i2 0 ≤ (b :: l2).getD (argmaxIdx (b :: l2)) 0 := ih i2 hi2
          have step3 : (a :: b :: l2).getD 0 0 = a := by simp
          rw [step1, step3]
          exact le_trans step2 h

theorem idxOfFour_spec : ∀ (ks : List ℕ) (i : ℕ), idxOfFour ks = some i →
    i < ks.length ∧ ks.getD i 0 = 4 := by
  intro ks
  induction ks with
  | nil => intro i h; simp [idxOfFour] at h
  | cons k ks ih =>
    intro i h
    simp only [idxOfFour] at h
    by_cases hk : k = 4
    · rw [if_pos hk] at h
      have : i = 0 := by simpa using h.symm
      subst this
      simpa using hk
    · rw [if_neg hk] at h
      cases ho : idxOfFour ks with
      | none => rw [ho] at h; simp at h
      | some j =>
        rw [ho] at h
        have hji : j + 1 = i := by simpa using h
        rcases ih j ho with ⟨hjl, hjv⟩
        subst hji
        constructor
        · simpa [Nat.succ_lt_succ_iff] using hjl
        · simpa using hjv

theorem collectFits_ok_length (fit : ℕ → Except Unit ℚ) :
    ∀ (ks : List ℕ) (is : List ℚ), collectFits fit ks = Except.ok is →
    is.length = ks.length := by
  intro ks
  induction ks with
  | nil =>
    intro is h
    simp only [collectFits] at h
    have : is = [] := by simpa using h.symm
    subst this
    rfl
  | cons k ks ih =>
    intro is h
    simp only [collectFits] at h
    cases hf : fit k with
    | error e => rw [hf] at h; simp at h
    | ok i =>
      rw [hf] at h
      cases hc : collectFits fit ks with
      | error e => rw [hc] at h; simp at h
      | ok is2 =>
        rw [hc] at h
        have : i :: is2 = is := by simpa using h
        subst this
        simp [ih is2 hc]

theorem collectFits_total (fit : ℕ → Except Unit ℚ)
    (hfit : ∀ k, ∃ i, fit k = Except.ok i) :
    ∀ ks : List ℕ, ∃ is, collectFits fit ks = Except.ok is := by
  intro ks
  induction ks with
  | nil => exact ⟨[], rfl⟩
  | cons k ks ih =>
    rcases ih with ⟨is, his⟩
    rcases hfit k with ⟨i, hi⟩
    exact ⟨i :: is, by simp [collectFits, hi, his]⟩

theorem collectFits_error (fit : ℕ → Except Unit ℚ) :
    ∀ (ks : List ℕ) (k : ℕ), k ∈ ks → fit k = Except.error () →
    collectFits fit ks = Except.error () := by
  intro ks
  induction ks with
  | nil => intro k h; simp at h
  | cons k2 ks ih =>
    intro k hmem hk
    rcases List.mem_cons.mp hmem with h | h
    · subst h; simp [collectFits, hk]
    · cases hf : fit k2 with
      | error e => cases e; simp [collectFits, hf]
      | ok i => simp [collectFits, hf, ih k h hk]

theorem kneeDistances_length (ks : List ℕ) (inertias : List ℚ) :
    (kneeDistances ks inertias).length = min ks.length inertias.length := by
  simp only [kneeDistances, List.length_zipWith, List.length_map]

theorem kneeSelect_mem (ks : List ℕ) (inertias : List ℚ)
    (hne : ks ≠ []) (hlen : inertias.length = ks.length) :
    kneeSelect ks inertias ∈ ks := by
  have hdlen : (kneeDistances ks inertias).length = ks.length := by
    rw [kneeDistances_length, hlen, min_self]
  have hdne : kneeDistances ks inertias ≠ [] := by
    intro h0
    apply hne
    rw [← List.length_eq_zero, ← hdlen, h0]
    rfl
  have hidx : argmaxIdx (kneeDistances ks inertias) < ks.length := by
    rw [← hdlen]
    exact argmaxIdx_lt_length _ hdne
  have hknee : ks.getD (argmaxIdx (kneeDistances ks inertias)) 0 ∈ ks :=
    getD_mem ks _ 0 hidx
  have hfour : ∀ i4, idxOfFour ks = some i4 → (4 : ℕ) ∈ ks := by
    intro i4 h4
    rcases idxOfFour_spec ks i4 h4 with ⟨hi4, hv4⟩
    rw [← hv4]
    exact getD_mem ks i4 0 hi4
  cases h4 : idxOfFour ks with
  | none =>
    simp only [kneeSelect, h4]
    exact hknee
  | some i4 =>
    simp only [kneeSelect, h4]
    by_cases hc : (85 : ℚ) / 100 *
        ((kneeDistances ks inertias).getD (argmaxIdx (kneeDistances ks inertias)) 0)
        ≤ (kneeDistances ks inertias).getD i4 0
    · rw [if_pos hc]
      exact hfour i4 h4
    · rw [if_neg hc]
      exact hknee

theorem list_sum_map_add {α : Type} (l : List α) (f g : α → ℚ) :
    (l.map (fun s => f s + g s)).sum = (l.map f).sum + (l.map g).sum := by
  induction l with
  | nil => simp
  | cons a l ih =>
    simp only [List.map_cons, List.sum_cons, ih]
    ring

theorem sum_map_indicator {α : Type} [DecidableEq α] (names : List α) (a : α) (x : ℚ) :
    names.Nodup → a ∈ names →
    (names.map (fun s => if a = s then x else 0)).sum = x := by
  induction names with
  | nil => intro _ h; simp at h
  | cons b names ih =>
    intro hnd hmem
    rcases List.nodup_cons.mp hnd with ⟨hb, hnd2⟩
    by_cases hab : a = b
    · subst hab
      simp only [List.map_cons, List.sum_cons, if_pos rfl]
      have hzero : (names.map (fun s => if a = s then x else 0)).sum = 0 := by
        apply List.sum_eq_zero
        intro y hy
        rcases List.mem_map.mp hy with ⟨s, hs, hys⟩
        have hne : a ≠ s := fun h => hb (h ▸ hs)
        rw [← hys, if_neg hne]
      rw [hzero]
      simp
    · rcases List.mem_cons.mp hmem with h | h
      · exact absurd h hab
      · simp only [List.map_cons, List.sum_cons, if_neg hab]
        rw [ih hnd2 h]
        ring

theorem sum_over_groups {β α : Type} [DecidableEq α] (key : β → α) (val : β → ℚ) :
    ∀ (rows : List β) (names : List α), names.Nodup → (∀ r ∈ rows, key r ∈ names) →
    (names.map (fun s => ((rows.filter (fun r => key r = s)).map val).sum)).sum
      = (rows.map val).sum := by
  intro rows
  induction rows with
  | nil =>
    intro names _ _
    simp
  | cons r rows ih =>
    intro names hnd hcov
    have hcov2 : ∀ x ∈ rows, key x ∈ names := fun x hx => hcov x (List.mem_cons_of_mem r hx)
    have hstep : ∀ s ∈ names,
        (((r :: rows).filter (fun t => key t = s)).map val).sum
          = (if key r = s then val r else 0) + ((rows.filter (fun t => key t = s)).map val).sum := by
      intro s _
      by_cases hk : key r = s
      · simp [List.filter_cons, hk]
      · simp [List.filter_cons, hk]
    rw [List.map_congr_left hstep, list_sum_map_add,
      sum_map_indicator names (key r) (val r) hnd (hcov r (List.mem_cons_self r rows)),
      ih names hnd hcov2]
    simp

theorem fillDescription_customerId (rows : List RawRow) (r : RawRow) :
    (fillDescription rows r).customerId = r.customerId := by
  unfold fillDescription
  cases r.description with
  | some d => rfl
  | none =>
    cases r.stockCode with
    | none => rfl
    | some c => rfl

theorem fillDescriptions_ok_customer (f : RawFrame) (l l2 : List RawRow)
    (h : fillDescriptions f l = Except.ok l2) :
    ∀ r ∈ l2, ∃ r0 ∈ l, r.customerId = r0.customerId := by
  unfold fillDescriptions at h
  by_cases hd : f.hasDescription = true
  · rw [if_pos hd] at h
    by_cases hs : f.hasStockCode = true
    · rw [if_pos hs] at h
      have hmap : l.map (fillDescription l) = l2 := by simpa using h
      intro r hr
      rw [← hmap] at hr
      rcases List.mem_map.mp hr with ⟨r0, hr0, hre⟩
      exact ⟨r0, hr0, by rw [← hre, fillDescription_customerId]⟩
    · rw [if_neg hs] at h
      simp at h
  · rw [if_neg hd] at h
    have hid : l = l2 := by simpa using h
    intro r hr
    exact ⟨r, by rw [hid]; exact hr, rfl⟩

theorem clean_ok_structure (f : RawFrame) (out : List RawRow)
    (h : clean_and_process_data f = Except.ok out) :
    ∃ df2 : List RawRow,
      (∀ r ∈ df2, r.customerId.isSome = true) ∧
      out = dedupKeepFirst ((((df2.map stripInvoice).filter qtyPos).filter
        notCancelled).filter pricePos) := by
  unfold clean_and_process_data at h
  by_cases h1 : (f.rows.filter (fun r => r.customerId.isSome)).length = 0
  · rw [if_pos h1] at h
    simp at h
  · rw [if_neg h1] at h
    cases hfd : fillDescriptions f (f.rows.filter (fun r => r.customerId.isSome)) with
    | error e =>
      rw [hfd] at h
      simp at h
    | ok df2 =>
      rw [hfd] at h
      dsimp only [] at h
      refine ⟨df2, ?_, ?_⟩
      · intro r hr
        rcases fillDescriptions_ok_customer f _ df2 hfd r hr with ⟨r0, hr0, heq⟩
        have hs : r0.customerId.isSome = true := by
          have := List.mem_filter.mp hr0
          simpa using this.2
        rw [heq]
        exact hs
      · by_cases h2 : (dedupKeepFirst ((((df2.map stripInvoice).filter qtyPos).filter
            notCancelled).filter pricePos)).length = 0
        · rw [if_pos h2] at h
          simp at h
        · rw [if_neg h2] at h
          simpa using h.symm

theorem qtyPos_spec (r : RawRow) (h : qtyPos r = true) :
    ∃ q, r.quantity = some q ∧ 0 < q := by
  unfold qtyPos at h
  cases hq : r.quantity with
  | none => rw [hq] at h; simp at h
  | some q =>
    rw [hq] at h
    exact ⟨q, rfl, by simpa using h⟩

theorem pricePos_spec (r : RawRow) (h : pricePos r = true) :
    ∃ p, r.unitPrice = some p ∧ 0 < p := by
  unfold pricePos at h
  cases hp : r.unitPrice with
  | none => rw [hp] at h; simp at h
  | some p =>
    rw [hp] at h
    exact ⟨p, rfl, by simpa using h⟩

theorem legacyFinish_inj (r r2 : LegacyRow)
    (h1 : r.customerId.isSome = true) (h2 : r.invoiceDate.isSome = true)
    (h3 : r.quantity.isSome = true) (h4 : r.unitPrice.isSome = true)
    (g1 : r2.customerId.isSome = true) (g2 : r2.invoiceDate.isSome = true)
    (g3 : r2.quantity.isSome = true) (g4 : r2.unitPrice.isSome = true)
    (h : legacyFinish r = legacyFinish r2) : r = r2 := by
  rcases r with ⟨c, inv, d, q, p⟩
  rcases r2 with ⟨c2, inv2, d2, q2, p2⟩
  simp only [Option.isSome_iff_exists] at h1 h2 h3 h4 g1 g2 g3 g4
  rcases h1 with ⟨a1, rfl⟩
  rcases h2 with ⟨a2, rfl⟩
  rcases h3 with ⟨a3, rfl⟩
  rcases h4 with ⟨a4, rfl⟩
  rcases g1 with ⟨b1, rfl⟩
  rcases g2 with ⟨b2, rfl⟩
  rcases g3 with ⟨b3, rfl⟩
  rcases g4 with ⟨b4, rfl⟩
  simp only [legacyFinish, LegacyCleanRow.mk.injEq, Option.getD_some] at h
  obtain ⟨e1, e2, e3, e4, e5, e6⟩ := h
  simp [e1, e2, e3, e4, e5]

/-- C1: for every mapped input frame on which cleaning succeeds, every row
of the cleaned output has quantity > 0, unit price > 0, a present
customer identifier and an invoice identifier that does not start with
the cancellation sentinel, and the output has no exact-duplicate rows;
the same invariant holds for the legacy cleaner `clean_raw` (which never
fails). -/
theorem cleaned_rows_invariant :
    (∀ (f : RawFrame) (out : List RawRow), clean_and_process_data f = Except.ok out →
      (∀ r ∈ out,
        (∃ q, r.quantity = some q ∧ 0 < q) ∧
        (∃ p, r.unitPrice = some p ∧ 0 < p) ∧
        r.customerId.isSome = true ∧
        startsWithC r.invoiceNo = false) ∧ out.Nodup)
    ∧
    (∀ rows : List LegacyRow,
      (∀ r ∈ clean_raw rows,
        0 < r.quantity ∧ 0 < r.unitPrice ∧ startsWithC r.invoiceNo = false) ∧
      (clean_raw rows).Nodup) := by
  constructor
  · intro f out h
    rcases clean_ok_structure f out h with ⟨df2, hdf2, hout⟩
    subst hout
    constructor
    · intro r hr
      have h6 := dedupKeepFirst_subset hr
      rcases List.mem_filter.mp h6 with ⟨h5, hpr⟩
      rcases List.mem_filter.mp h5 with ⟨h4, hnc⟩
      rcases List.mem_filter.mp h4 with ⟨h3, hq⟩
      rcases List.mem_map.mp h3 with ⟨r0, hr0, hre⟩
      refine ⟨qtyPos_spec r hq, pricePos_spec r hpr, ?_, ?_⟩
      · have hcid : r.customerId = r0.customerId := by rw [← hre]; rfl
        rw [hcid]
        exact hdf2 r0 hr0
      · unfold notCancelled at hnc
        simpa using hnc
    · exact dedupKeepFirst_nodup _
  · intro rows
    unfold clean_raw
    dsimp only []
    constructor
    · intro r hr
      rcases List.mem_map.mp hr with ⟨r0, hr0d, hre⟩
      have hr5 := dedupKeepFirst_subset hr0d
      rcases List.mem_filter.mp hr5 with ⟨hr4, hncl⟩
      rcases List.mem_filter.mp hr4 with ⟨hr3, hqp⟩
      have hqp2 : 0 < r0.quantity.getD 0 ∧ 0 < r0.unitPrice.getD 0 := by
        simpa using hqp
      have hq := hqp2.1
      have hp := hqp2.2
      rw [← hre]
      refine ⟨hq, hp, ?_⟩
      simpa [legacyFinish] using hncl
    · apply List.Nodup.map_on ?_ (dedupKeepFirst_nodup _)
      intro x hx y hy hxy
      have hprops : ∀ z,
          z ∈ dedupKeepFirst ((((((rows.map (fun r =>
              { r with invoiceNo := stripStr r.invoiceNo })).filter
              (fun r => r.customerId.isSome && r.invoiceDate.isSome)).map
              legacyCoerce).filter (fun r =>
              decide (0 < r.quantity.getD 0) && decide (0 < r.unitPrice.getD 0))).filter
              (fun r => ! startsWithC r.invoiceNo))) →
          z.customerId.isSome = true ∧ z.invoiceDate.isSome = true ∧
          z.quantity.isSome = true ∧ z.unitPrice.isSome = true := by
        intro z hz
        have hz5 := dedupKeepFirst_subset hz
        rcases List.mem_filter.mp hz5 with ⟨hz4, _⟩
        rcases List.mem_filter.mp hz4 with ⟨hz3, _⟩
        rcases List.mem_map.mp hz3 with ⟨z0, hz0, hze⟩
        rcases List.mem_filter.mp hz0 with ⟨_, hz0p⟩
        have hcd : z0.customerId.isSome = true ∧ z0.invoiceDate.isSome = true := by
          simpa using hz0p
        rw [← hze]
        exact ⟨hcd.1, hcd.2, rfl, rfl⟩
      rcases hprops x hx with ⟨hx1, hx2, hx3, hx4⟩
      rcases hprops y hy with ⟨hy1, hy2, hy3, hy4⟩
      exact legacyFinish_inj x y hx1 hx2 hx3 hx4 hy1 hy2 hy3 hy4 hxy

/-- Witness for C1 at a concrete frame of two valid rows and a concrete
one-row legacy dataset. -/
theorem cleaned_rows_invariant_witness :
    clean_and_process_data sampleFrame = Except.ok [sampleRawRow1, sampleRawRow2] ∧
    ((∀ r ∈ [sampleRawRow1, sampleRawRow2],
        (∃ q, r.quantity = some q ∧ 0 < q) ∧
        (∃ p, r.unitPrice = some p ∧ 0 < p) ∧
        r.customerId.isSome = true ∧
        startsWithC r.invoiceNo = false) ∧ [sampleRawRow1, sampleRawRow2].Nodup) ∧
    ((∀ r ∈ clean_raw [sampleLegacyRow],
        0 < r.quantity ∧ 0 < r.unitPrice ∧ startsWithC r.invoiceNo = false) ∧
      (clean_raw [sampleLegacyRow]).Nodup) :=
  ⟨by rfl,
    cleaned_rows_invariant.1 sampleFrame [sampleRawRow1, sampleRawRow2] (by rfl),
    cleaned_rows_invariant.2 [sampleLegacyRow]⟩

/-- C9: on a frame whose mapped columns include Description but not
StockCode, and that has at least one row with a present customer
identifier, cleaning raises: the description backfill unconditionally
groups by StockCode even though the product-code column is optional. -/
theorem description_backfill_raises (f : RawFrame)
    (hd : f.hasDescription = true) (hs : f.hasStockCode = false)
    (hr : ∃ r ∈ f.rows, r.customerId.isSome = true) :
    clean_and_process_data f = Except.error ("KeyError: StockCode") := by
  have h1 : ¬ (f.rows.filter (fun r => r.customerId.isSome)).length = 0 := by
    rcases hr with ⟨r, hrm, hrs⟩
    have hmem : r ∈ f.rows.filter (fun r => r.customerId.isSome) :=
      List.mem_filter.mpr ⟨hrm, hrs⟩
    intro h0
    rw [List.length_eq_zero] at h0
    rw [h0] at hmem
    simp at hmem
  have hfd : fillDescriptions f (f.rows.filter (fun r => r.customerId.isSome))
      = Except.error ("KeyError: StockCode") := by
    unfold fillDescriptions
    rw [hd, hs]
    simp
  unfold clean_and_process_data
  rw [if_neg h1, hfd]

/-- Witness for C9 at a concrete frame with a Description column, no
StockCode column, and one valid row. -/
theorem description_backfill_raises_witness :
    (sampleFrameNoStock.hasDescription = true ∧ sampleFrameNoStock.hasStockCode = false ∧
      ∃ r ∈ sampleFrameNoStock.rows, r.customerId.isSome = true) ∧
    clean_and_process_data sampleFrameNoStock = Except.error ("KeyError: StockCode") :=
  ⟨⟨rfl, rfl, by decide⟩,
    description_backfill_raises sampleFrameNoStock rfl rfl (by decide)⟩

theorem filtered_listMax_le {α : Type} (dates : α → ℤ) (p : α → Bool) (l : List α)
    (hne : ∃ r ∈ l, p r = true) :
    listMax 0 ((l.filter p).map dates) ≤ listMax 0 (l.map dates) := by
  rcases hne with ⟨r, hr, hpr⟩
  have hmem : r ∈ l.filter p := List.mem_filter.mpr ⟨hr, hpr⟩
  have hnem : (l.filter p).map dates ≠ [] := by
    intro h0
    have hfe : l.filter p = [] := List.map_eq_nil_iff.mp h0
    rw [hfe] at hmem
    simp at hmem
  have hmx := listMax_mem 0 _ hnem
  rcases List.mem_map.mp hmx with ⟨r2, hr2, heq⟩
  rw [← heq]
  exact le_listMax 0 _ _ (List.mem_map_of_mem dates (List.mem_filter.mp hr2).1)

theorem recency_formula_one_le (gmax cmax : ℤ) (hle : cmax ≤ gmax) :
    1 ≤ Int.fdiv ((gmax + secondsPerDay) - cmax) secondsPerDay := by
  have h86 : (0 : ℤ) ≤ secondsPerDay := by norm_num [secondsPerDay]
  rw [Int.fdiv_eq_ediv _ h86]
  simp only [secondsPerDay]
  omega

/-- C4: for every non-empty cleaned dataset, each customer's recency is
non-negative and equals, in whole days, the snapshot date minus that
customer's latest transaction date, where the snapshot date is one day
after the global maximum transaction timestamp; this holds for both RFM
builders. -/
theorem rfm_recency_spec :
    (∀ (df : List TxRow) (e : RfmRow), df ≠ [] → e ∈ calculate_rfm_features df →
      0 ≤ e.recency ∧
      e.recency = Int.fdiv ((listMax 0 (df.map (fun r => r.invoiceDate)) + secondsPerDay)
        - listMax 0 ((df.filter (fun r => r.customerId = e.customerId)).map
          (fun r => r.invoiceDate))) secondsPerDay)
    ∧
    (∀ (df : List LegacyCleanRow) (e : RfmFullRow), df ≠ [] → e ∈ calculate_rfm df →
      0 ≤ e.recency ∧
      e.recency = Int.fdiv ((listMax 0 (df.map (fun r => r.invoiceDate)) + secondsPerDay)
        - listMax 0 ((df.filter (fun r => r.customerId = e.customerId)).map
          (fun r => r.invoiceDate))) secondsPerDay) := by
  constructor
  · intro df e hne he
    unfold calculate_rfm_features at he
    dsimp only [] at he
    rcases List.mem_map.mp he with ⟨c, hc, hce⟩
    subst hce
    have hcid : c ∈ df.map (fun r => r.customerId) := dedupKeepFirst_subset hc
    rcases List.mem_map.mp hcid with ⟨r, hr, hrc⟩
    have hle := filtered_listMax_le (fun r => r.invoiceDate)
      (fun r => decide (r.customerId = c)) df ⟨r, hr, by simp [hrc]⟩
    refine ⟨?_, rfl⟩
    have heq : (rfmForCustomer df
        (listMax 0 (df.map (fun r => r.invoiceDate)) + secondsPerDay) c).recency
        = Int.fdiv ((listMax 0 (df.map (fun r => r.invoiceDate)) + secondsPerDay)
          - listMax 0 ((df.filter (fun r => r.customerId = c)).map
            (fun r => r.invoiceDate))) secondsPerDay := rfl
    rw [heq]
    exact le_trans zero_le_one (recency_formula_one_le _ _ hle)
  · intro df e hne he
    unfold calculate_rfm at he
    dsimp only [] at he
    rcases List.mem_map.mp he with ⟨c, hc, hce⟩
    subst hce
    have hcid : c ∈ df.map (fun r => r.customerId) := dedupKeepFirst_subset hc
    rcases List.mem_map.mp hcid with ⟨r, hr, hrc⟩
    have hle := filtered_listMax_le (fun r => r.invoiceDate)
      (fun r => decide (r.customerId = c)) df ⟨r, hr, by simp [hrc]⟩
    refine ⟨le_trans zero_le_one (recency_formula_one_le _ _ hle), rfl⟩

/-- Witness for C4 at a concrete two-row dataset (one customer) and a
concrete one-row legacy dataset. -/
theorem rfm_recency_spec_witness :
    (sampleTxDf ≠ [] ∧ (⟨1, 1, 1, 40⟩ : RfmRow) ∈ calculate_rfm_features sampleTxDf) ∧
    (0 ≤ (⟨1, 1, 1, 40⟩ : RfmRow).recency ∧
      (⟨1, 1, 1, 40⟩ : RfmRow).recency
        = Int.fdiv ((listMax 0 (sampleTxDf.map (fun r => r.invoiceDate)) + secondsPerDay)
          - listMax 0 ((sampleTxDf.filter
              (fun r => r.customerId = (⟨1, 1, 1, 40⟩ : RfmRow).customerId)).map
            (fun r => r.invoiceDate))) secondsPerDay) ∧
    (0 ≤ (⟨1, 1, 1, 6, 6, 0, 0⟩ : RfmFullRow).recency ∧
      (⟨1, 1, 1, 6, 6, 0, 0⟩ : RfmFullRow).recency
        = Int.fdiv ((listMax 0 (sampleLegacyCleanDf.map (fun r => r.invoiceDate)) + secondsPerDay)
          - listMax 0 ((sampleLegacyCleanDf.filter
              (fun r => r.customerId = (⟨1, 1, 1, 6, 6, 0, 0⟩ : RfmFullRow).customerId)).map
            (fun r => r.invoiceDate))) secondsPerDay) :=
  ⟨⟨by simp [sampleTxDf], by
      norm_num [calculate_rfm_features, rfmForCustomer, dedupKeepFirst, dedupGo, listMax,
        sampleTxDf, sampleTx1, sampleTx2, secondsPerDay, List.filter]⟩,
    rfm_recency_spec.1 sampleTxDf ⟨1, 1, 1, 40⟩ (by simp [sampleTxDf]) (by
      norm_num [calculate_rfm_features, rfmForCustomer, dedupKeepFirst, dedupGo, listMax,
        sampleTxDf, sampleTx1, sampleTx2, secondsPerDay, List.filter]),
    rfm_recency_spec.2 sampleLegacyCleanDf ⟨1, 1, 1, 6, 6, 0, 0⟩ (by simp [sampleLegacyCleanDf]) (by
      norm_num [calculate_rfm, dedupKeepFirst, dedupGo, listMax, listMin,
        sampleLegacyCleanDf, secondsPerDay, List.filter])⟩

/-- C5: for every non-empty cleaned dataset, each customer's frequency is
the number of distinct invoice identifiers among that customer's rows
(not the raw row count). -/
theorem rfm_frequency_distinct (df : List TxRow) (e : RfmRow)
    (hne : df ≠ []) (he : e ∈ calculate_rfm_features df) :
    e.frequency = ((df.filter (fun r => r.customerId = e.customerId)).map
      (fun r => r.invoiceNo)).toFinset.card := by
  unfold calculate_rfm_features at he
  dsimp only [] at he
  rcases List.mem_map.mp he with ⟨c, hc, hce⟩
  subst hce
  show (dedupKeepFirst ((df.filter (fun r => r.customerId = c)).map
    (fun r => r.invoiceNo))).length = _
  rw [dedupKeepFirst_length_toFinset]
  rfl

/-- Witness for C5: two rows of one customer sharing one invoice id give
frequency 1, although the customer has 2 rows. -/
theorem rfm_frequency_distinct_witness :
    (sampleTxDf ≠ [] ∧ (⟨1, 1, 1, 40⟩ : RfmRow) ∈ calculate_rfm_features sampleTxDf) ∧
    (⟨1, 1, 1, 40⟩ : RfmRow).frequency
      = ((sampleTxDf.filter (fun r => r.customerId = (⟨1, 1, 1, 40⟩ : RfmRow).customerId)).map
          (fun r => r.invoiceNo)).toFinset.card ∧
    (⟨1, 1, 1, 40⟩ : RfmRow).frequency = 1 ∧
    (sampleTxDf.filter (fun r => r.customerId = (⟨1, 1, 1, 40⟩ : RfmRow).customerId)).length = 2 :=
  ⟨⟨by simp [sampleTxDf], by
      norm_num [calculate_rfm_features, rfmForCustomer, dedupKeepFirst, dedupGo, listMax,
        sampleTxDf, sampleTx1, sampleTx2, secondsPerDay, List.filter]⟩,
    rfm_frequency_distinct sampleTxDf ⟨1, 1, 1, 40⟩ (by simp [sampleTxDf]) (by
      norm_num [calculate_rfm_features, rfmForCustomer, dedupKeepFirst, dedupGo, listMax,
        sampleTxDf, sampleTx1, sampleTx2, secondsPerDay, List.filter]),
    rfl,
    by norm_num [sampleTxDf, sampleTx1, sampleTx2, List.filter]⟩

/-- C10: for every non-empty cleaned dataset, every computed recency is at
least one whole day (never 0): the snapshot date sits one day after the
global maximum timestamp and each customer's latest transaction is no
later than that maximum; this holds for both RFM builders. -/
theorem rfm_recency_at_least_one :
    (∀ (df : List TxRow) (e : RfmRow), df ≠ [] → e ∈ calculate_rfm_features df →
      1 ≤ e.recency)
    ∧
    (∀ (df : List LegacyCleanRow) (e : RfmFullRow), df ≠ [] → e ∈ calculate_rfm df →
      1 ≤ e.recency) := by
  constructor
  · intro df e hne he
    unfold calculate_rfm_features at he
    dsimp only [] at he
    rcases List.mem_map.mp he with ⟨c, hc, hce⟩
    subst hce
    have hcid : c ∈ df.map (fun r => r.customerId) := dedupKeepFirst_subset hc
    rcases List.mem_map.mp hcid with ⟨r, hr, hrc⟩
    have hle := filtered_listMax_le (fun r => r.invoiceDate)
      (fun r => decide (r.customerId = c)) df ⟨r, hr, by simp [hrc]⟩
    exact recency_formula_one_le _ _ hle
  · intro df e hne he
    unfold calculate_rfm at he
    dsimp only [] at he
    rcases List.mem_map.mp he with ⟨c, hc, hce⟩
    subst hce
    have hcid : c ∈ df.map (fun r => r.customerId) := dedupKeepFirst_subset hc
    rcases List.mem_map.mp hcid with ⟨r, hr, hrc⟩
    have hle := filtered_listMax_le (fun r => r.invoiceDate)
      (fun r => decide (r.customerId = c)) df ⟨r, hr, by simp [hrc]⟩
    exact recency_formula_one_le _ _ hle

/-- Witness for C10 at the concrete datasets. -/
theorem rfm_recency_at_least_one_witness :
    (sampleTxDf ≠ [] ∧ (⟨1, 1, 1, 40⟩ : RfmRow) ∈ calculate_rfm_features sampleTxDf) ∧
    1 ≤ (⟨1, 1, 1, 40⟩ : RfmRow).recency ∧
    1 ≤ (⟨1, 1, 1, 6, 6, 0, 0⟩ : RfmFullRow).recency :=
  ⟨⟨by simp [sampleTxDf], by
      norm_num [calculate_rfm_features, rfmForCustomer, dedupKeepFirst, dedupGo, listMax,
        sampleTxDf, sampleTx1, sampleTx2, secondsPerDay, List.filter]⟩,
    rfm_recency_at_least_one.1 sampleTxDf ⟨1, 1, 1, 40⟩ (by simp [sampleTxDf]) (by
      norm_num [calculate_rfm_features, rfmForCustomer, dedupKeepFirst, dedupGo, listMax,
        sampleTxDf, sampleTx1, sampleTx2, secondsPerDay, List.filter]),
    rfm_recency_at_least_one.2 sampleLegacyCleanDf ⟨1, 1, 1, 6, 6, 0, 0⟩
      (by simp [sampleLegacyCleanDf]) (by
      norm_num [calculate_rfm, dedupKeepFirst, dedupGo, listMax, listMin,
        sampleLegacyCleanDf, secondsPerDay, List.filter])⟩

/-- C7: the segment namer is a pure function of the three sign conditions
(mean recency < 0, mean frequency > 0, mean monetary > 0): the mapping of
`auto_name_segments` equals the fixed 8-entry taxonomy table of the spec
applied to the sign triple, and any two clusters with identical sign
triples receive the same name. -/
theorem segment_namer_table :
    (∀ means : List ClusterMeans,
      auto_name_segments means = means.map (fun row =>
        (row.cluster, specSegmentTable (decide (row.recency < 0))
          (decide (0 < row.frequency)) (decide (0 < row.monetary)))))
    ∧
    (∀ r f m r2 f2 m2 : ℚ, ((r < 0) ↔ (r2 < 0)) → ((0 < f) ↔ (0 < f2)) →
      ((0 < m) ↔ (0 < m2)) → segmentName r f m = segmentName r2 f2 m2) := by
  have hkernel : ∀ r f m : ℚ, segmentName r f m
      = specSegmentTable (decide (r < 0)) (decide (0 < f)) (decide (0 < m)) := by
    intro r f m
    unfold segmentName specSegmentTable
    by_cases h1 : r < 0 <;> by_cases h2 : 0 < f <;> by_cases h3 : 0 < m <;>
      simp [h1, h2, h3]
  constructor
  · intro means
    unfold auto_name_segments
    exact List.map_congr_left (fun row _ => by rw [hkernel])
  · intro r f m r2 f2 m2 h1 h2 h3
    rw [hkernel, hkernel, decide_eq_decide.mpr h1, decide_eq_decide.mpr h2,
      decide_eq_decide.mpr h3]

/-- Witness for C7: two clusters with the same sign triple but different
mean values get the same name. -/
theorem segment_namer_table_witness :
    (((-1 : ℚ) < 0) ↔ ((-2 : ℚ) < 0)) ∧ ((0 < (1 : ℚ)) ↔ (0 < (3 : ℚ))) ∧
    ((0 < (5 : ℚ)) ↔ (0 < (7 : ℚ))) ∧
    segmentName (-1) 1 5 = segmentName (-2) 3 7 :=
  ⟨by decide, by decide, by decide,
    segment_namer_table.2 (-1) 1 5 (-2) 3 7 (by decide) (by decide) (by decide)⟩

/-- C8: the per-segment revenue totals of the analytics aggregator sum to
the total monetary value over all customers (exactly, in the rational
embedding of the float arithmetic). -/
theorem revenue_by_segment_total (rfm : List SegRow) :
    (((generate_analytics rfm).revenueBySegment).map (fun p => p.2)).sum
      = (rfm.map (fun r => r.monetary)).sum := by
  unfold generate_analytics
  rw [List.map_map]
  have hcomp : ((fun p : String × ℚ => p.2) ∘ (fun s =>
      (s, ((rfm.filter (fun r => r.clusterName = s)).map (fun r => r.monetary)).sum)))
      = fun s => ((rfm.filter (fun r => r.clusterName = s)).map (fun r => r.monetary)).sum := by
    funext s
    rfl
  rw [hcomp]
  exact sum_over_groups (fun r => r.clusterName) (fun r => r.monetary) rfm
    (dedupKeepFirst (rfm.map (fun r => r.clusterName)))
    (dedupKeepFirst_nodup _)
    (fun r hr => mem_dedupKeepFirst (List.mem_map_of_mem _ hr))

theorem testedRange_bounds (n minClusters maxClusters k : ℕ)
    (hge : (minClusters : ℤ) ≤ maxPossibleClusters n maxClusters)
    (h : k ∈ testedRange n minClusters maxClusters) :
    minClusters ≤ k ∧ k ≤ (maxPossibleClusters n maxClusters).toNat := by
  unfold testedRange at h
  unfold maxPossibleClusters at hge h ⊢
  rw [List.mem_range'_1] at h
  omega

theorem testedRange_ne_nil (n minClusters maxClusters : ℕ) :
    testedRange n minClusters maxClusters ≠ [] := by
  unfold testedRange
  intro h0
  have hlen := congrArg List.length h0
  rw [List.length_range'] at hlen
  simp at hlen

/-- C2 counterexample: with min_clusters = 5, max_clusters = 8 (so
min ≤ max) and a fit that raises on every tested k, the selector returns
4, strictly below min_clusters: the claimed bound fails on the
error-fallback path. -/
theorem selector_range_counterexample :
    find_optimal_clusters (fun _ => Except.error ()) 10 5 8 = 4 ∧
    ¬ 5 ≤ find_optimal_clusters (fun _ => Except.error ()) 10 5 8 := by
  decide

/-- C2 (amended): for min_clusters ≤ max_clusters the selector never
exceeds max_clusters on any path, including the error fallback; the lower
bound min_clusters ≤ k holds on every path on which no fit raises.  (On
the error path the result is min(4, max_possible) and can fall below
min_clusters, as the counterexample shows.) -/
theorem selector_range :
    (∀ (fit : ℕ → Except Unit ℚ) (n minClusters maxClusters : ℕ),
      minClusters ≤ maxClusters →
      find_optimal_clusters fit n minClusters maxClusters ≤ maxClusters)
    ∧
    (∀ (fit : ℕ → Except Unit ℚ) (n minClusters maxClusters : ℕ),
      minClusters ≤ maxClusters → (∀ k, ∃ i, fit k = Except.ok i) →
      minClusters ≤ find_optimal_clusters fit n minClusters maxClusters) := by
  constructor
  · intro fit n minC maxC hminmax
    unfold find_optimal_clusters
    by_cases hM : maxPossibleClusters n maxC < (minC : ℤ)
    · rw [if_pos hM]
      exact hminmax
    · rw [if_neg hM]
      have hM0 : (minC : ℤ) ≤ maxPossibleClusters n maxC := not_lt.mp hM
      have hMle : maxPossibleClusters n maxC ≤ (maxC : ℤ) := min_le_left _ _
      cases hcf : collectFits fit (testedRange n minC maxC) with
      | error e =>
        show min 4 (maxPossibleClusters n maxC).toNat ≤ maxC
        omega
      | ok inertias =>
        show (if 3 ≤ inertias.length
          then kneeSelect (testedRange n minC maxC) inertias else minC) ≤ maxC
        by_cases hlen : 3 ≤ inertias.length
        · rw [if_pos hlen]
          have hmem := kneeSelect_mem (testedRange n minC maxC) inertias
            (testedRange_ne_nil n minC maxC)
            (collectFits_ok_length fit _ inertias hcf)
          have hb := testedRange_bounds n minC maxC _ hM0 hmem
          omega
        · rw [if_neg hlen]
          exact hminmax
  · intro fit n minC maxC hminmax hfit
    unfold find_optimal_clusters
    by_cases hM : maxPossibleClusters n maxC < (minC : ℤ)
    · rw [if_pos hM]
    · rw [if_neg hM]
      rcases collectFits_total fit hfit (testedRange n minC maxC) with ⟨is, his⟩
      rw [his]
      show minC ≤ (if 3 ≤ is.length
        then kneeSelect (testedRange n minC maxC) is else minC)
      by_cases hlen : 3 ≤ is.length
      · rw [if_pos hlen]
        have hmem := kneeSelect_mem (testedRange n minC maxC) is
          (testedRange_ne_nil n minC maxC)
          (collectFits_ok_length fit _ is his)
        exact (testedRange_bounds n minC maxC _ (not_lt.mp hM) hmem).1
      · rw [if_neg hlen]

/-- Witness for C2 (amended) at a concrete total fit and a concrete
failing fit is not needed for the upper bound; both parts are
instantiated on a constant successful fit with the range 2..8. -/
theorem selector_range_witness :
    (2 ≤ 8 ∧ find_optimal_clusters (fun _ => Except.ok (1 : ℚ)) 20 2 8 ≤ 8) ∧
    ((∀ k : ℕ, ∃ i, (fun _ : ℕ => (Except.ok 1 : Except Unit ℚ)) k = Except.ok i) ∧
      2 ≤ find_optimal_clusters (fun _ => Except.ok (1 : ℚ)) 20 2 8) :=
  ⟨⟨by decide, selector_range.1 (fun _ => Except.ok (1 : ℚ)) 20 2 8 (by decide)⟩,
    ⟨fun k => ⟨1, rfl⟩,
      selector_range.2 (fun _ => Except.ok (1 : ℚ)) 20 2 8 (by decide) (fun k => ⟨1, rfl⟩)⟩⟩

/-- C3 counterexample: with min_clusters = 6, max_clusters = 9 and a fit
that raises, the selector returns 4, while 4 clamped into the valid range
[6, 9] would be 6. -/
theorem selector_fallback_counterexample :
    find_optimal_clusters (fun _ => Except.error ()) 12 6 9 = 4 ∧
    max 6 (min 4 9) = 6 ∧ (4 : ℕ) ≠ 6 := by
  decide

/-- C3 (amended): whenever the tested range is non-empty and some tested
fit raises a numerical error, the selector does not propagate the error
and returns min(4, max_possible_clusters): the fallback of 4 is clamped
from above into the valid range but not from below. -/
theorem selector_fallback (fit : ℕ → Except Unit ℚ) (n minClusters maxClusters : ℕ)
    (hrange : (minClusters : ℤ) ≤ maxPossibleClusters n maxClusters)
    (hk : ∃ k ∈ testedRange n minClusters maxClusters, fit k = Except.error ()) :
    find_optimal_clusters fit n minClusters maxClusters
      = min 4 (maxPossibleClusters n maxClusters).toNat := by
  unfold find_optimal_clusters
  rw [if_neg (not_lt.mpr hrange)]
  rcases hk with ⟨k, hkm, hke⟩
  rw [collectFits_error fit _ k hkm hke]

/-- Witness for C3 (amended): range 6..9 with one failing fit. -/
theorem selector_fallback_witness :
    ((6 : ℤ) ≤ maxPossibleClusters 12 9 ∧
      ∃ k ∈ testedRange 12 6 9,
        (fun j : ℕ => if j = 7 then Except.error () else Except.ok (1 : ℚ)) k
          = Except.error ()) ∧
    find_optimal_clusters (fun j => if j = 7 then Except.error () else Except.ok (1 : ℚ)) 12 6 9
      = min 4 (maxPossibleClusters 12 9).toNat :=
  ⟨⟨by decide, ⟨7, by decide, rfl⟩⟩,
    selector_fallback (fun j => if j = 7 then Except.error () else Except.ok (1 : ℚ))
      12 6 9 (by decide) ⟨7, by decide, rfl⟩⟩

/-- C6: when the selector computes a knee curve (all fits succeed, at
least three inertias), k = 4 lies in the tested range (at index `i4` of
the enumerate search), and the inertias are not all equal (so the
normalized curve of the code is well defined), then: if the knee-distance
score at k = 4 is at least 85 percent of the maximal score, the selector
returns 4; otherwise it returns the tested k carrying the (first) maximal
knee-distance score.  `kneeDistances` holds the code's perpendicular
distances divided by one common positive constant, which preserves both
the argmax and the 85-percent comparison. -/
theorem knee_selection_rule (fit : ℕ → Except Unit ℚ) (n minClusters maxClusters : ℕ)
    (inertias : List ℚ) (i4 : ℕ)
    (hrange : (minClusters : ℤ) ≤ maxPossibleClusters n maxClusters)
    (hfits : collectFits fit (testedRange n minClusters maxClusters) = Except.ok inertias)
    (hlen : 3 ≤ inertias.length)
    (h4 : idxOfFour (testedRange n minClusters maxClusters) = some i4)
    (hvaried : ∃ a ∈ inertias, ∃ b ∈ inertias, a ≠ b) :
    ((85 : ℚ) / 100 * ((kneeDistances (testedRange n minClusters maxClusters) inertias).getD
        (argmaxIdx (kneeDistances (testedRange n minClusters maxClusters) inertias)) 0)
      ≤ (kneeDistances (testedRange n minClusters maxClusters) inertias).getD i4 0 →
      find_optimal_clusters fit n minClusters maxClusters = 4)
    ∧
    ((kneeDistances (testedRange n minClusters maxClusters) inertias).getD i4 0
      < (85 : ℚ) / 100 * ((kneeDistances (testedRange n minClusters maxClusters) inertias).getD
        (argmaxIdx (kneeDistances (testedRange n minClusters maxClusters) inertias)) 0) →
      find_optimal_clusters fit n minClusters maxClusters
        = (testedRange n minClusters maxClusters).getD
            (argmaxIdx (kneeDistances (testedRange n minClusters maxClusters) inertias)) 0
      ∧ ∀ j < (kneeDistances (testedRange n minClusters maxClusters) inertias).length,
          (kneeDistances (testedRange n minClusters maxClusters) inertias).getD j 0
            ≤ (kneeDistances (testedRange n minClusters maxClusters) inertias).getD
                (argmaxIdx (kneeDistances (testedRange n minClusters maxClusters) inertias)) 0) := by
  have hres : find_optimal_clusters fit n minClusters maxClusters
      = kneeSelect (testedRange n minClusters maxClusters) inertias := by
    unfold find_optimal_clusters
    rw [if_neg (not_lt.mpr hrange), hfits]
    show (if 3 ≤ inertias.length
      then kneeSelect (testedRange n minClusters maxClusters) inertias else minClusters) = _
    rw [if_pos hlen]
  constructor
  · intro hc
    rw [hres]
    simp only [kneeSelect, h4]
    rw [if_pos hc]
  · intro hc
    constructor
    · rw [hres]
      simp only [kneeSelect, h4]
      rw [if_neg (not_le.mpr hc)]
    · intro j hj
      exact getD_argmaxIdx_max _ j hj

/-- Witness for C6: the convex sample curve over the tested range 2..6,
whose knee sits exactly at k = 4. -/
theorem knee_selection_rule_witness :
    ((2 : ℤ) ≤ maxPossibleClusters 10 6 ∧
      collectFits sampleFit (testedRange 10 2 6) = Except.ok [100, 60, 30, 25, 22] ∧
      3 ≤ ([100, 60, 30, 25, 22] : List ℚ).length ∧
      idxOfFour (testedRange 10 2 6) = some 2 ∧
      ∃ a ∈ ([100, 60, 30, 25, 22] : List ℚ), ∃ b ∈ ([100, 60, 30, 25, 22] : List ℚ), a ≠ b) ∧
    (((85 : ℚ) / 100 * ((kneeDistances (testedRange 10 2 6) [100, 60, 30, 25, 22]).getD
        (argmaxIdx (kneeDistances (testedRange 10 2 6) [100, 60, 30, 25, 22])) 0)
      ≤ (kneeDistances (testedRange 10 2 6) [100, 60, 30, 25, 22]).getD 2 0 →
      find_optimal_clusters sampleFit 10 2 6 = 4)
    ∧
    ((kneeDistances (testedRange 10 2 6) [100, 60, 30, 25, 22]).getD 2 0
      < (85 : ℚ) / 100 * ((kneeDistances (testedRange 10 2 6) [100, 60, 30, 25, 22]).getD
        (argmaxIdx (kneeDistances (testedRange 10 2 6) [100, 60, 30, 25, 22])) 0) →
      find_optimal_clusters sampleFit 10 2 6
        = (testedRange 10 2 6).getD
            (argmaxIdx (kneeDistances (testedRange 10 2 6) [100, 60, 30, 25, 22])) 0
      ∧ ∀ j < (kneeDistances (testedRange 10 2 6) [100, 60, 30, 25, 22]).length,
          (kneeDistances (testedRange 10 2 6) [100, 60, 30, 25, 22]).getD j 0
            ≤ (kneeDistances (testedRange 10 2 6) [100, 60, 30, 25, 22]).getD
                (argmaxIdx (kneeDistances (testedRange 10 2 6) [100, 60, 30, 25, 22])) 0)) :=
  ⟨⟨by decide, by rfl, by decide, by decide, ⟨100, by decide, 60, by decide, by decide⟩⟩,
    knee_selection_rule sampleFit 10 2 6 [100, 60, 30, 25, 22] 2
      (by decide) (by rfl) (by decide) (by decide)
      ⟨100, by decide, 60, by decide, by decide⟩⟩
